import Mathlib

/-!
Verification of the file-explorer core (navigation, tree search, copy,
permission change) against its specification.  The filesystem operations
are shallowly embedded: the directory tree walked by the search is an
inductive tree, the mutable current-directory cursor is explicit state,
and `chdir` / `chmod` / `read` / `write` outcomes are supplied as oracles.
-/

namespace FileExplorer

/-- A node of a finite acyclic directory tree: either a plain file or a
directory with an ordered list of children (the order `readdir` yields). -/
inductive FSNode where
  | file (name : String)
  | dir (name : String) (children : List FSNode)

/-- The entry name (`d_name`) of a node. -/
def nodeName : FSNode → String
  | .file n => n
  | .dir n _ => n

/-- Embedding of `name.find(pattern) != string::npos`: the pattern occurs
in the name as a contiguous case-sensitive substring. -/
def matchesPattern (name pattern : String) : Bool :=
  decide (pattern.data <:+: name.data)

/-- Embedding of the `readdir` loop body of `FileExplorer::searchInDirectory`
over the children of a directory at `path`: for each entry, `fullPath` is
`path + "/" + name`; the path is collected when the name matches, and the
walk recurses into the entry exactly when its type is `DT_DIR`. -/
def searchList (path pattern : String) : List FSNode → List String
  | [] => []
  | n :: rest =>
    let name := nodeName n
    let fullPath := path ++ "/" ++ name
    (if matchesPattern name pattern then [fullPath] else [])
      ++ (match n with
          | .dir _ cs => searchList fullPath pattern cs
          | .file _ => [])
      ++ searchList path pattern rest

/-- Embedding of `FileExplorer::searchInDirectory path pattern results`:
`opendir` on a non-directory fails, producing no results; on a directory
the children are scanned in order. -/
def searchInDirectory (path pattern : String) : FSNode → List String
  | .file _ => []
  | .dir _ children => searchList path pattern children

/-- All strict descendants of the children list, in the same pre-order the
walk visits them, as pairs of entry name and absolute path. -/
def entriesList (path : String) : List FSNode → List (String × String)
  | [] => []
  | n :: rest =>
    let name := nodeName n
    let fullPath := path ++ "/" ++ name
    (name, fullPath)
      :: ((match n with
           | .dir _ cs => entriesList fullPath cs
           | .file _ => [])
          ++ entriesList path rest)

/-- All strict descendants of a node, with their names and absolute paths. -/
def descendants (path : String) : FSNode → List (String × String)
  | .file _ => []
  | .dir _ children => entriesList path children

theorem searchList_eq_filter : ∀ (path pattern : String) (ns : List FSNode),
    searchList path pattern ns
      = ((entriesList path ns).filter (fun e => matchesPattern e.1 pattern)).map Prod.snd
  | _, _, [] => by simp [searchList, entriesList]
  | path, pattern, FSNode.file nm :: rest => by
    rw [searchList, entriesList]
    rw [searchList_eq_filter path pattern rest]
    simp [nodeName, List.filter_cons]
    by_cases h : matchesPattern nm pattern <;> simp [h]
  | path, pattern, FSNode.dir nm cs :: rest => by
    rw [searchList, entriesList]
    rw [searchList_eq_filter (path ++ "/" ++ nodeName (FSNode.dir nm cs)) pattern cs]
    rw [searchList_eq_filter path pattern rest]
    simp [nodeName, List.filter_cons, List.filter_append]
    by_cases h : matchesPattern nm pattern <;> simp [h]

/-- Number of nodes in a list of trees (every descendant counted once). -/
def countList : List FSNode → Nat
  | [] => 0
  | n :: rest =>
    1 + (match n with
         | .dir _ cs => countList cs
         | .file _ => 0)
      + countList rest

/-- Number of strict descendants of a node. -/
def countDescendants : FSNode → Nat
  | .file _ => 0
  | .dir _ children => countList children

theorem entriesList_length : ∀ (path : String) (ns : List FSNode),
    (entriesList path ns).length = countList ns
  | _, [] => by simp [entriesList, countList]
  | path, FSNode.file nm :: rest => by
    rw [entriesList, countList]
    simp [nodeName, entriesList_length path rest]
    omega
  | path, FSNode.dir nm cs :: rest => by
    rw [entriesList, countList]
    simp [nodeName, entriesList_length (path ++ "/" ++ nm) cs, entriesList_length path rest]
    omega

lemma search_example_eval : searchInDirectory "/a" "b"
    (.dir "a" [.file "b.txt", .dir "c" [.file "b_old.txt", .file "d.log"]])
    = ["/a/b.txt", "/a/c/b_old.txt"] := by
  simp [searchInDirectory, searchList, matchesPattern, nodeName]
  decide

/-- C1: on every finite acyclic directory tree, `search(root, pattern)`
returns exactly the descendants (files and directories, at any depth)
whose name contains the pattern as a case-sensitive substring: a path is
in the result iff it is the absolute path of a descendant whose name has
the pattern as a substring — so matching descendants inside non-matching
directories are found, and non-matching descendants are omitted.  In
particular, on the tree rooted at `/a` with children `b.txt` and `c`,
where `c` contains `b_old.txt` and `d.log`, searching `"/a"` for `"b"`
returns exactly the set containing `/a/b.txt` and `/a/c/b_old.txt`. -/
theorem search_exactly_matching_descendants :
    (∀ (t : FSNode) (root pattern p : String),
        p ∈ searchInDirectory root pattern t
          ↔ ∃ nm, (nm, p) ∈ descendants root t ∧ pattern.data <:+: nm.data)
    ∧ (∀ p, p ∈ searchInDirectory "/a" "b"
          (.dir "a" [.file "b.txt", .dir "c" [.file "b_old.txt", .file "d.log"]])
        ↔ (p = "/a/b.txt" ∨ p = "/a/c/b_old.txt")) := by
  constructor
  · intro t root pattern p
    cases t with
    | file nm => simp [searchInDirectory, descendants]
    | dir nm cs =>
      rw [searchInDirectory, descendants, searchList_eq_filter]
      simp only [List.mem_map, List.mem_filter, matchesPattern, decide_eq_true_eq]
      constructor
      · rintro ⟨⟨a, b⟩, ⟨hmem, hmatch⟩, rfl⟩
        exact ⟨a, hmem, hmatch⟩
      · rintro ⟨a, hmem, hmatch⟩
        exact ⟨(a, p), ⟨hmem, hmatch⟩, rfl⟩
  · intro p
    rw [search_example_eval]
    simp

/-- C8: on every finite acyclic directory tree the recursive search
terminates with a fully materialized finite result: the returned list is
exactly the filter of the complete pre-order descendant traversal (the
whole subtree is visited before the call returns, no early exit), the
traversal enumerates each descendant exactly once (its length equals the
node count of the subtree), and the result length is bounded by that
count. -/
theorem search_terminates_fully_materialized :
    ∀ (t : FSNode) (root pattern : String),
      searchInDirectory root pattern t
        = ((descendants root t).filter (fun e => matchesPattern e.1 pattern)).map Prod.snd
      ∧ (descendants root t).length = countDescendants t
      ∧ (searchInDirectory root pattern t).length ≤ countDescendants t := by
  intro t root pattern
  cases t with
  | file nm => simp [searchInDirectory, descendants, countDescendants]
  | dir nm cs =>
    rw [searchInDirectory, descendants, countDescendants, searchList_eq_filter,
      entriesList_length]
    refine ⟨rfl, rfl, ?_⟩
    rw [List.length_map, ← entriesList_length root cs]
    exact List.length_filter_le _ _

/-! Navigation: the current-directory cursor and `changeDirectory`.  The
outcome of the `chdir` probe is supplied as an oracle `enterable`, true on
exactly the paths that exist, are directories, and are permitted. -/

/-- Index of the last occurrence of '/' in a character list, embedding
`string::find_last_of` (`none` for `npos`). -/
def lastSlashIdx : List Char → Option Nat
  | [] => none
  | c :: rest =>
    match lastSlashIdx rest with
    | some i => some (i + 1)
    | none => if c = '/' then some 0 else none

/-- Embedding of the path-resolution part of `FileExplorer::changeDirectory`:
for `".."` the cursor is truncated at its last separator (`substr(0, pos)`)
when that separator exists at a nonzero position, else the target is `"/"`;
a token whose character at index 0 is a slash is used verbatim (on the empty
token, `path[0]` reads the null terminator, which is not a slash); any other
token is appended to the cursor after a separator. -/
def resolveToken (currentPath tok : String) : String :=
  if tok = ".." then
    match lastSlashIdx currentPath.data with
    | some pos => if pos ≠ 0 then String.mk (currentPath.data.take pos) else "/"
    | none => "/"
  else if tok.data.head? = some '/' then tok
  else currentPath ++ "/" ++ tok

/-- Embedding of `FileExplorer::changeDirectory`: resolve the token, probe
the target with `chdir`; on success the cursor becomes the resolved path
and the call returns true, on failure the cursor is untouched and the call
returns false (the `NavigationError::Unreachable` outcome). -/
def changeDirectory (enterable : String → Bool) (currentPath tok : String) :
    Bool × String :=
  let newPath := resolveToken currentPath tok
  if enterable newPath then (true, newPath) else (false, currentPath)

/-- The cursor invariant: a nonempty string that starts with '/'. -/
def validCursor (s : String) : Prop :=
  s ≠ "" ∧ s.data.head? = some '/'

/-- Embedding of the `FileExplorer` constructor: the cursor starts as the
result of `getcwd`, falling back to `"/"` when that call fails. -/
def initialPath : Option String → String
  | some s => s
  | none => "/"

lemma validCursor_iff (s : String) :
    validCursor s ↔ (s ≠ "" ∧ s.data.head? = some '/') := Iff.rfl

lemma lastSlashIdx_lt_length : ∀ (l : List Char) (i : Nat),
    lastSlashIdx l = some i → i < l.length := by
  intro l
  induction l with
  | nil => intro i h; simp [lastSlashIdx] at h
  | cons c rest ih =>
    intro i h
    rw [lastSlashIdx] at h
    rcases hr : lastSlashIdx rest with _ | j <;> rw [hr] at h
    · by_cases hc : c = '/' <;> simp [hc] at h
      simp only [List.length_cons]
      omega
    · simp only [Option.some.injEq] at h
      have hj := ih j hr
      simp only [List.length_cons]
      omega

lemma take_preserves_head {l : List Char} {n : Nat} (h : n ≠ 0) :
    (l.take n).head? = l.head? := by
  cases l with
  | nil => simp
  | cons c rest =>
    cases n with
    | zero => exact absurd rfl h
    | succ m => simp

lemma validCursor_root : validCursor "/" := ⟨by decide, by decide⟩

lemma resolveToken_valid (cur tok : String)
    (hv : validCursor cur) : validCursor (resolveToken cur tok) := by
  obtain ⟨hne, hhead⟩ := hv
  by_cases hdd : tok = ".."
  · rcases hls : lastSlashIdx cur.data with _ | pos
    · have hres : resolveToken cur tok = "/" := by
        rw [resolveToken]; simp [hdd, hls]
      rw [hres]; exact validCursor_root
    · by_cases hpos : pos = 0
      · have hres : resolveToken cur tok = "/" := by
          rw [resolveToken]; simp [hdd, hls, hpos]
        rw [hres]; exact validCursor_root
      · have hres : resolveToken cur tok = String.mk (cur.data.take pos) := by
          rw [resolveToken]; simp [hdd, hls, hpos]
        rw [hres, validCursor_iff]
        have hlt := lastSlashIdx_lt_length cur.data pos hls
        constructor
        · intro hcontr
          have hdat : (cur.data.take pos) = [] := congrArg String.data hcontr
          rw [List.take_eq_nil_iff] at hdat
          rcases hdat with h0 | hl0
          · exact hpos h0
          · rw [hl0] at hlt; simp at hlt
        · show (cur.data.take pos).head? = some '/'
          rw [take_preserves_head hpos]
          exact hhead
  · by_cases habs : tok.data.head? = some '/'
    · have hres : resolveToken cur tok = tok := by
        rw [resolveToken]; simp [hdd, habs]
      rw [hres, validCursor_iff]
      refine ⟨?_, habs⟩
      intro hcontr
      rw [hcontr] at habs
      simp at habs
    · have hres : resolveToken cur tok = cur ++ "/" ++ tok := by
        rw [resolveToken]; simp [hdd, habs]
      rw [hres, validCursor_iff]
      have hdata : cur.data ≠ [] := by
        intro h0
        rw [h0] at hhead
        simp at hhead
      constructor
      · intro hcontr
        have hd := congrArg String.data hcontr
        simp at hd
      · show (cur ++ "/" ++ tok).data.head? = some '/'
        rw [String.data_append, String.data_append]
        rw [List.append_assoc, List.head?_append]
        rw [hhead]
        rfl

/-- C2: for every stored cursor and every token whose resolved target the
`chdir` probe rejects (not existing, not a directory, or permission
denied), the call fails — returning `false`, the
`NavigationError::Unreachable` outcome — and the stored cursor after the
call equals its value before the call. -/
theorem navigate_failure_leaves_cursor :
    ∀ (enterable : String → Bool) (cur tok : String),
      enterable (resolveToken cur tok) = false →
      changeDirectory enterable cur tok = (false, cur) := by
  intro e cur tok h
  simp [changeDirectory, h]

theorem navigate_failure_leaves_cursor_witness :
    (fun _ : String => false) (resolveToken "/x" "missing") = false
    ∧ changeDirectory (fun _ : String => false) "/x" "missing" = (false, "/x") :=
  ⟨rfl, navigate_failure_leaves_cursor (fun _ => false) "/x" "missing" rfl⟩

/-- C3: `navigate("..")` truncates the cursor at its last separator; when
the cursor is the root `"/"`, the resolved target is the root itself and,
the root being enterable, the call succeeds with the cursor unchanged.
Starting from `/x/y`, three successive `navigate("..")` calls yield
cursors `/x`, then `/`, then `/` again. -/
theorem navigate_dotdot_parent :
    resolveToken "/" ".." = "/"
    ∧ (∀ enterable : String → Bool, enterable "/" = true →
        changeDirectory enterable "/" ".." = (true, "/"))
    ∧ (∀ enterable : String → Bool,
        enterable "/x" = true → enterable "/" = true →
        changeDirectory enterable "/x/y" ".." = (true, "/x")
        ∧ changeDirectory enterable "/x" ".." = (true, "/")
        ∧ changeDirectory enterable "/" ".." = (true, "/")) := by
  have hroot : resolveToken "/" ".." = "/" := by decide
  have hxy : resolveToken "/x/y" ".." = "/x" := by decide
  have hx : resolveToken "/x" ".." = "/" := by decide
  refine ⟨hroot, ?_, ?_⟩
  · intro e he
    simp [changeDirectory, hroot, he]
  · intro e hex he
    refine ⟨?_, ?_, ?_⟩
    · simp [changeDirectory, hxy, hex]
    · simp [changeDirectory, hx, he]
    · simp [changeDirectory, hroot, he]

theorem navigate_dotdot_parent_witness :
    (fun s : String => (s = "/x" || s = "/" : Bool)) "/x" = true
    ∧ (fun s : String => (s = "/x" || s = "/" : Bool)) "/" = true
    ∧ changeDirectory (fun s : String => (s = "/x" || s = "/" : Bool)) "/x/y" ".."
        = (true, "/x")
    ∧ changeDirectory (fun s : String => (s = "/x" || s = "/" : Bool)) "/x" ".."
        = (true, "/")
    ∧ changeDirectory (fun s : String => (s = "/x" || s = "/" : Bool)) "/" ".."
        = (true, "/") := by
  have h := navigate_dotdot_parent.2.2 (fun s : String => (s = "/x" || s = "/" : Bool))
    (by decide) (by decide)
  exact ⟨by decide, by decide, h.1, h.2.1, h.2.2⟩

/-- C7: the cursor is always a nonempty string beginning with '/': this
holds after construction (initial working directory when `getcwd`
succeeds — `getcwd` only produces absolute paths — and `"/"` otherwise)
and is preserved by every `changeDirectory` call, whether it succeeds or
fails, for every token. -/
theorem cursor_always_absolute :
    (∀ cwd : Option String, (∀ s, cwd = some s → validCursor s) →
        validCursor (initialPath cwd))
    ∧ (∀ (enterable : String → Bool) (cur tok : String),
        validCursor cur → validCursor (changeDirectory enterable cur tok).2) := by
  constructor
  · intro cwd h
    cases cwd with
    | none => exact validCursor_root
    | some s => exact h s rfl
  · intro e cur tok hv
    show validCursor (if e (resolveToken cur tok) then
      (true, resolveToken cur tok) else (false, cur)).2
    by_cases he : e (resolveToken cur tok) = true
    · rw [if_pos he]
      exact resolveToken_valid cur tok hv
    · rw [if_neg he]
      exact hv

theorem cursor_always_absolute_witness :
    validCursor (initialPath (some "/home"))
    ∧ validCursor (changeDirectory (fun _ : String => false) "/x/y" "..").2 := by
  constructor
  · exact cursor_always_absolute.1 (some "/home")
      (by intro s hs; cases hs; exact (validCursor_iff _).mpr ⟨by decide, by decide⟩)
  · exact cursor_always_absolute.2 (fun _ => false) "/x/y" ".."
      ((validCursor_iff _).mpr ⟨by decide, by decide⟩)

/-- C9: the empty token is not rejected and is not a no-op: it fails the
absolute-path test (index 0 of the empty string reads the null character,
not '/'), is resolved as a relative token producing `currentPath + "/"`,
and whenever that target is enterable the call succeeds and the stored
cursor becomes the old cursor with a trailing separator appended. -/
theorem navigate_empty_token_appends_slash :
    ∀ (enterable : String → Bool) (cur : String),
      resolveToken cur "" = cur ++ "/"
      ∧ (enterable (cur ++ "/") = true →
          changeDirectory enterable cur "" = (true, cur ++ "/")) := by
  intro e cur
  have h1 : resolveToken cur "" = cur ++ "/" := by
    rw [resolveToken]
    simp
  refine ⟨h1, ?_⟩
  intro he
  simp [changeDirectory, h1, he]

theorem navigate_empty_token_appends_slash_witness :
    resolveToken "/x" "" = "/x" ++ "/"
    ∧ changeDirectory (fun _ : String => true) "/x" "" = (true, "/x" ++ "/") := by
  have h := navigate_empty_token_appends_slash (fun _ : String => true) "/x"
  exact ⟨h.1, h.2 rfl⟩

/-! File operations: copy and chmod over an abstract filesystem state
mapping absolute paths to entries. -/

/-- A filesystem entry: a regular file with byte content and permission
bits, or a directory with permission bits. -/
inductive Entry where
  | file (content : List Nat) (mode : Nat)
  | dir (mode : Nat)

/-- The abstract filesystem state: which entry, if any, each path holds. -/
def FS : Type := String → Option Entry

/-- Update one path of the state. -/
def setPath (fs : FS) (p : String) (e : Option Entry) : FS :=
  fun q => if q = p then e else fs q

/-- Embedding of `FileExplorer::copyFileContents` on the filesystem state,
for runs whose read/write loop hits no I/O fault (the loop with faults is
modelled separately by `copyLoop`): opening a missing source fails;
opening the destination with `O_WRONLY|O_CREAT|O_TRUNC` fails when the
destination is a directory, creates it with mode `0644` when absent and
truncates it keeping its mode when present; the loop then copies the
source bytes as visible after that truncation (when source and
destination alias, the source has just been truncated), while `read` on a
directory fails, so a directory source yields failure after the
destination was already truncated. -/
def copyFileContents (fs : FS) (src dest : String) : Bool × FS :=
  match fs src with
  | none => (false, fs)
  | some _ =>
    match fs dest with
    | some (.dir _) => (false, fs)
    | de =>
      let destMode := match de with
        | some (.file _ m) => m
        | _ => 420
      let fs1 := setPath fs dest (some (.file [] destMode))
      match fs1 src with
      | some (.file c _) => (true, setPath fs1 dest (some (.file c destMode)))
      | _ => (false, fs1)

/-- Embedding of `FileExplorer::copyFile`: both names are resolved against
the cursor; `stat` on the source must succeed and report a non-directory;
the bytes are then copied, and on success `chmod` applies the mode the
initial `stat` observed to the destination (its result is ignored). -/
def copyFile (fs : FS) (currentPath src dest : String) : Bool × FS :=
  let srcPath := currentPath ++ "/" ++ src
  let destPath := currentPath ++ "/" ++ dest
  match fs srcPath with
  | none => (false, fs)
  | some (.dir _) => (false, fs)
  | some (.file _ m) =>
    match copyFileContents fs srcPath destPath with
    | (true, fs1) =>
      (true, match fs1 destPath with
             | some (.file c _) => setPath fs1 destPath (some (.file c m))
             | some (.dir _) => setPath fs1 destPath (some (.dir m))
             | none => fs1)
    | (false, fs1) => (false, fs1)

lemma setPath_same (fs : FS) (p : String) (e : Option Entry) :
    setPath fs p e p = e := by
  simp [setPath]

lemma setPath_other (fs : FS) {p q : String} (e : Option Entry) (h : q ≠ p) :
    setPath fs p e q = fs q := by
  simp [setPath, h]

/-- C4: when `copyFile` succeeds, the destination holds a regular file
whose byte content equals the content of the source file as read back
after the copy, and whose permission bits equal the bits the `stat` taken
at the start of the copy observed on the source (the bytes are written
first, then the source mode applied); when source and destination resolve
to distinct paths, the destination content is exactly the original source
content. -/
theorem copy_preserves_content_and_mode :
    ∀ (fs : FS) (cur src dest : String) (fs2 : FS),
      copyFile fs cur src dest = (true, fs2) →
      ∃ (c c0 : List Nat) (m : Nat),
        fs (cur ++ "/" ++ src) = some (Entry.file c0 m)
        ∧ fs2 (cur ++ "/" ++ dest) = some (Entry.file c m)
        ∧ fs2 (cur ++ "/" ++ src) = some (Entry.file c m)
        ∧ (cur ++ "/" ++ src ≠ cur ++ "/" ++ dest → c = c0) := by
  intro fs cur src dest fs2 h
  simp only [copyFile] at h
  rcases hS : fs (cur ++ "/" ++ src) with _ | e
  · rw [hS] at h; simp at h
  rcases e with ⟨c0, m0⟩ | mD
  swap
  · rw [hS] at h; simp at h
  rw [hS] at h
  rcases hcc : copyFileContents fs (cur ++ "/" ++ src) (cur ++ "/" ++ dest)
    with ⟨ok, fs1⟩
  rw [hcc] at h
  cases ok
  · simp at h
  simp only [Prod.mk.injEq, true_and] at h
  simp only [copyFileContents, hS] at hcc
  by_cases hSD : (cur ++ "/" ++ src) = (cur ++ "/" ++ dest)
  · -- the two names alias the same path: the destination open truncates
    -- the source, so both end up empty with the original source mode
    rw [← hSD] at h hcc ⊢
    simp only [hS, setPath_same, Prod.mk.injEq, true_and] at hcc
    subst hcc
    simp only [setPath_same] at h
    subst h
    refine ⟨[], c0, m0, rfl, ?_, ?_, fun hne => absurd rfl hne⟩ <;>
      simp [setPath_same]
  · -- distinct paths
    rcases hD : fs (cur ++ "/" ++ dest) with _ | ed
    · -- destination absent: created with mode 0644, bytes copied, chmod
      simp only [hD, setPath_other _ _ hSD, hS, Prod.mk.injEq, true_and] at hcc
      subst hcc
      simp only [setPath_same] at h
      subst h
      refine ⟨c0, c0, m0, rfl, ?_, ?_, fun _ => rfl⟩ <;>
        simp [setPath_same, setPath_other _ _ hSD, hS]
    rcases ed with ⟨cd, md⟩ | mdd
    · -- destination is a file: truncated keeping its own mode, bytes
      -- copied, chmod then applies the source mode
      simp only [hD, setPath_other _ _ hSD, hS, Prod.mk.injEq, true_and] at hcc
      subst hcc
      simp only [setPath_same] at h
      subst h
      refine ⟨c0, c0, m0, rfl, ?_, ?_, fun _ => rfl⟩ <;>
        simp [setPath_same, setPath_other _ _ hSD, hS]
    · -- destination is a directory: the open fails, contradicting success
      rw [hD] at hcc
      simp at hcc

/-- A one-file filesystem used to instantiate the copy theorem. -/
def copyExampleFS : FS :=
  fun p => if p = "/d" ++ "/" ++ "s" then some (Entry.file [10, 20] 493) else none

theorem copy_preserves_content_and_mode_witness :
    copyFile copyExampleFS "/d" "s" "t"
      = (true, (copyFile copyExampleFS "/d" "s" "t").2)
    ∧ ∃ (c c0 : List Nat) (m : Nat),
        copyExampleFS ("/d" ++ "/" ++ "s") = some (Entry.file c0 m)
        ∧ (copyFile copyExampleFS "/d" "s" "t").2 ("/d" ++ "/" ++ "t")
            = some (Entry.file c m)
        ∧ (copyFile copyExampleFS "/d" "s" "t").2 ("/d" ++ "/" ++ "s")
            = some (Entry.file c m)
        ∧ ("/d" ++ "/" ++ "s" ≠ "/d" ++ "/" ++ "t" → c = c0) :=
  ⟨rfl, copy_preserves_content_and_mode copyExampleFS "/d" "s" "t"
    (copyFile copyExampleFS "/d" "s" "t").2 rfl⟩

/-- One `read` outcome in the byte-copy loop: a chunk of bytes actually
read (`bytesRead > 0` when nonempty, `bytesRead == 0`, end of file, when
empty) or a read error (`bytesRead < 0`). -/
inductive ReadStep where
  | chunk (data : List Nat)
  | readErr

/-- Embedding of the `while ((bytesRead = read(...)) > 0)` loop of
`copyFileContents`: the outcomes of successive `read` calls are given by
the list (exhausting it means the next `read` returns 0), and the count
returned by the i-th `write` call is `writes i`.  A write whose return
differs from `bytesRead` makes the function return false immediately; a
read error leaves the loop with `bytesRead < 0`, so the final
`bytesRead == 0` check returns false; reads exhausted (`bytesRead == 0`)
returns true. -/
def copyLoop (writes : Nat → Int) : List ReadStep → Nat → Bool
  | [], _ => true
  | .readErr :: _, _ => false
  | .chunk data :: rest, i =>
    if data.length = 0 then true
    else if writes i = (data.length : Int) then copyLoop writes rest (i + 1)
    else false

/-- The mode `chmod` is invoked with, computed from the three characters
of the permission string exactly as the source does:
`((perms[0]-'0') << 6) | ((perms[1]-'0') << 3) | (perms[2]-'0')` on the
raw character codes, with no check that they are octal digits. -/
def permMode (c0 c1 c2 : Char) : Nat :=
  (((c0.toNat - '0'.toNat) <<< 6) ||| ((c1.toNat - '0'.toNat) <<< 3))
    ||| (c2.toNat - '0'.toNat)

/-- Embedding of `FileExplorer::changePermissions`: the target is the
cursor plus the given name; a permission string whose length is not 3 is
rejected before any filesystem call; otherwise `chmod` is invoked with
the computed mode, succeeding — and updating the mode bits — exactly when
the target exists.  The last component records the `chmod` invocation
made, `none` when validation rejected the input. -/
def changePermissions (fs : FS) (currentPath name perms : String) :
    Bool × FS × Option (String × Nat) :=
  let fullPath := currentPath ++ "/" ++ name
  match perms.data with
  | [c0, c1, c2] =>
    let mode := permMode c0 c1 c2
    match fs fullPath with
    | some (.file c _) =>
      (true, setPath fs fullPath (some (.file c mode)), some (fullPath, mode))
    | some (.dir _) =>
      (true, setPath fs fullPath (some (.dir mode)), some (fullPath, mode))
    | none => (false, fs, some (fullPath, mode))
  | _ => (false, fs, none)

/-- C5: in the byte-copy loop, after any prefix of fully transferred
writes, a short write — the write call returning fewer bytes than were
read — makes the copy report total failure, for every source content and
every point in the stream at which the short write occurs; a read error
at any point likewise yields failure rather than success. -/
theorem short_write_total_failure :
    ∀ (writes : Nat → Int) (pre : List (List Nat)) (i : Nat),
      (∀ k (hk : k < pre.length),
          pre.get ⟨k, hk⟩ ≠ []
          ∧ writes (i + k) = ((pre.get ⟨k, hk⟩).length : Int)) →
      (∀ (c : List Nat) (rest : List ReadStep), c ≠ [] →
          writes (i + pre.length) < (c.length : Int) →
          copyLoop writes (pre.map ReadStep.chunk ++ (ReadStep.chunk c :: rest)) i
            = false)
      ∧ (∀ rest : List ReadStep,
          copyLoop writes (pre.map ReadStep.chunk ++ (ReadStep.readErr :: rest)) i
            = false) := by
  intro writes pre
  induction pre with
  | nil =>
    intro i _
    constructor
    · intro c rest hc hlt
      rw [List.map_nil, List.nil_append, copyLoop]
      have hlen : ¬c.length = 0 := by simpa using hc
      rw [if_neg hlen]
      simp only [List.length_nil, Nat.add_zero] at hlt
      rw [if_neg (ne_of_lt hlt)]
    · intro rest
      rw [List.map_nil, List.nil_append, copyLoop]
  | cons p ps ih =>
    intro i h
    have hp := h 0 (by simp)
    simp only [List.get] at hp
    have hshift : ∀ k (hk : k < ps.length),
        ps.get ⟨k, hk⟩ ≠ []
        ∧ writes (i + 1 + k) = ((ps.get ⟨k, hk⟩).length : Int) := by
      intro k hk
      have hk1 : k + 1 < (p :: ps).length := by simp; omega
      have := h (k + 1) hk1
      rw [List.get_cons_succ] at this
      refine ⟨this.1, ?_⟩
      have harith : i + 1 + k = i + (k + 1) := by omega
      rw [harith]
      exact this.2
    have hplen : ¬p.length = 0 := by simpa using hp.1
    have hpw : writes i = (p.length : Int) := by simpa using hp.2
    constructor
    · intro c rest hc hlt
      rw [List.map_cons, List.cons_append, copyLoop, if_neg hplen, if_pos hpw]
      have hlt1 : writes (i + 1 + ps.length) < (c.length : Int) := by
        have harith : i + 1 + ps.length = i + (p :: ps).length := by simp; omega
        rw [harith]
        exact hlt
      exact (ih (i + 1) hshift).1 c rest hc hlt1
    · intro rest
      rw [List.map_cons, List.cons_append, copyLoop, if_neg hplen, if_pos hpw]
      exact (ih (i + 1) hshift).2 rest

theorem short_write_total_failure_witness :
    ((fun n : Nat => if n = 0 then (2 : Int) else 1) 1 < (3 : Int))
    ∧ copyLoop (fun n : Nat => if n = 0 then (2 : Int) else 1)
        ([[1, 2]].map ReadStep.chunk ++ (ReadStep.chunk [7, 7, 7] :: [])) 0 = false
    ∧ copyLoop (fun n : Nat => if n = 0 then (2 : Int) else 1)
        ([[1, 2]].map ReadStep.chunk ++ (ReadStep.readErr :: [])) 0 = false := by
  have h := short_write_total_failure (fun n : Nat => if n = 0 then (2 : Int) else 1)
    [[1, 2]] 0 (by
      intro k hk
      have hk0 : k = 0 := by simp at hk; exact hk
      subst hk0
      exact ⟨by simp, by simp⟩)
  refine ⟨by decide, ?_, h.2 []⟩
  exact h.1 [7, 7, 7] [] (by decide) (by decide)

/-- C6: for every target name and every permission string whose length is
not exactly 3, `changePermissions` fails (`InvalidArgument`) and performs
no filesystem mutation: the length check rejects the input before the
`chmod` primitive is invoked (no invocation is recorded), so the state —
in particular the mode bits of the target — is unchanged. -/
theorem chmod_bad_length_no_mutation :
    ∀ (fs : FS) (cur name perms : String),
      perms.length ≠ 3 →
      changePermissions fs cur name perms = (false, fs, none) := by
  intro fs cur name perms h
  obtain ⟨l⟩ := perms
  rw [String.length_mk] at h
  rcases l with _ | ⟨a, _ | ⟨b, _ | ⟨c, _ | ⟨d, tl⟩⟩⟩⟩
  · rfl
  · rfl
  · rfl
  · exact absurd rfl h
  · rfl

theorem chmod_bad_length_no_mutation_witness :
    ("75" : String).length ≠ 3
    ∧ changePermissions (fun _ : String => none) "/x" "f" "75"
        = (false, (fun _ : String => none), none) :=
  ⟨by decide,
    chmod_bad_length_no_mutation (fun _ => none) "/x" "f" "75" (by decide)⟩

/-- C10: the change-permissions validation rejects an input iff its length
differs from 3 and never checks that the characters are digits: for every
3-character permission string the `chmod` primitive is invoked on the
resolved target with the mode computed arithmetically from the raw
character codes as `((c0-'0')<<6)|((c1-'0')<<3)|(c2-'0')` — so e.g.
`"abc"` or `"999"` passes validation and reaches the filesystem call. -/
theorem chmod_validation_is_length_only :
    ∀ (fs : FS) (cur name perms : String),
      ((changePermissions fs cur name perms).2.2 = none ↔ perms.length ≠ 3)
      ∧ (∀ c0 c1 c2 : Char, perms.data = [c0, c1, c2] →
          (changePermissions fs cur name perms).2.2
            = some (cur ++ "/" ++ name,
                (((c0.toNat - '0'.toNat) <<< 6) ||| ((c1.toNat - '0'.toNat) <<< 3))
                  ||| (c2.toNat - '0'.toNat))) := by
  intro fs cur name perms
  obtain ⟨l⟩ := perms
  rcases l with _ | ⟨a, _ | ⟨b, _ | ⟨c, _ | ⟨d, tl⟩⟩⟩⟩
  · exact ⟨by simp [changePermissions], by intro _ _ _ h; simp at h⟩
  · exact ⟨by simp [changePermissions], by intro _ _ _ h; simp at h⟩
  · exact ⟨by simp [changePermissions], by intro _ _ _ h; simp at h⟩
  · constructor
    · rw [changePermissions]
      rcases fs (cur ++ "/" ++ name) with _ | ⟨_, _⟩ <;> simp
    · intro c0 c1 c2 hd
      simp only [String.data] at hd
      cases hd
      rw [changePermissions]
      rcases fs (cur ++ "/" ++ name) with _ | ⟨_, _⟩ <;>
        simp [permMode]
  · exact ⟨by simp [changePermissions], by intro _ _ _ h; simp at h⟩

theorem chmod_validation_is_length_only_witness :
    (changePermissions (fun _ : String => none) "/x" "f" "abc").2.2
      = some ("/x" ++ "/" ++ "f",
          ((('a'.toNat - '0'.toNat) <<< 6) ||| (('b'.toNat - '0'.toNat) <<< 3))
            ||| ('c'.toNat - '0'.toNat)) :=
  (chmod_validation_is_length_only (fun _ : String => none) "/x" "f" "abc").2
    'a' 'b' 'c' rfl

end FileExplorer
